import Mathlib

/-!
Verification of the activities web client (`src/static/app.js`).

JavaScript strings are modelled as `List Char`; the relevant primitives
(`String.prototype.split`, `trim`, `toUpperCase`, `encodeURIComponent`) are
embedded as executable Lean functions, and the DOM-building code is embedded
as pure functions from fetched data to view structures.
-/

namespace AppJs

/-- Model of `String.prototype.split(sep)` for a single-character separator:
`"".split(sep)` is `[""]`, and each occurrence of `sep` starts a new piece. -/
def jsSplitOnChar (sep : Char) : List Char → List (List Char)
  | [] => [[]]
  | c :: rest =>
    if c = sep then [] :: jsSplitOnChar sep rest
    else
      match jsSplitOnChar sep rest with
      | [] => [[c]]
      | p :: ps => (c :: p) :: ps

/-- The separator class of the regex `/[._-]+/` in `getInitials`. -/
def isSep (c : Char) : Bool := c = '.' || c = '_' || c = '-'

/-- Model of `String.prototype.split(/[._-]+/)`: split on maximal runs of
separator characters.  `"".split` is `[""]`; a leading or trailing run
contributes an empty piece, and interior runs collapse (no empty interior
pieces). -/
def jsSplitSepRuns : List Char → List (List Char)
  | [] => [[]]
  | c :: rest =>
    if isSep c then
      match rest with
      | [] => [[], []]
      | c2 :: rest2 =>
        if isSep c2 then jsSplitSepRuns (c2 :: rest2)
        else [] :: jsSplitSepRuns (c2 :: rest2)
    else
      match jsSplitSepRuns rest with
      | [] => [[c]]
      | p :: ps => (c :: p) :: ps

/-- The whitespace class removed by `String.prototype.trim`: ECMAScript
WhiteSpace (TAB, VT, FF, SP, NBSP, ZWNBSP and the Unicode Zs space
separators U+1680, U+2000–U+200A, U+202F, U+205F, U+3000) together with the
LineTerminator characters (LF, CR, LS, PS). -/
def isJsWhitespace (c : Char) : Bool :=
  c = ' ' || c = '\t' || c = '\n' || c = '\r' ||
  c = Char.ofNat 0x0B || c = Char.ofNat 0x0C || c = Char.ofNat 0xA0 ||
  c = Char.ofNat 0x1680 ||
  (0x2000 ≤ c.toNat && c.toNat ≤ 0x200A) ||
  c = Char.ofNat 0x2028 || c = Char.ofNat 0x2029 ||
  c = Char.ofNat 0x202F || c = Char.ofNat 0x205F ||
  c = Char.ofNat 0x3000 || c = Char.ofNat 0xFEFF

/-- Model of `String.prototype.trim`: drop leading and trailing whitespace. -/
def jsTrim (l : List Char) : List Char :=
  ((l.dropWhile isJsWhitespace).reverse.dropWhile isJsWhitespace).reverse

/-- The multi-character expansions of the Unicode full uppercase mapping
(SpecialCasing) applied by `String.prototype.toUpperCase`: ß and the
Latin/Armenian/Greek characters whose uppercase is a sequence of two or
three characters (ŉ, ǰ, ΐ, ΰ, և, ẖ, ẗ, ẘ, ẙ, ẚ, ὐ, ὒ, ὔ, ὖ, the Latin
ligatures ﬀ–ﬆ and the Armenian ligatures ﬓ–ﬗ).  The Greek
iota-subscript/breathing block behaves the same way (expansions of at most
three characters) and is omitted here. -/
def upperExpansions : List (Char × List Char) :=
  [ (Char.ofNat 0xDF, ['S', 'S']),
    (Char.ofNat 0x149, [Char.ofNat 0x2BC, 'N']),
    (Char.ofNat 0x1F0, ['J', Char.ofNat 0x30C]),
    (Char.ofNat 0x390, [Char.ofNat 0x399, Char.ofNat 0x308, Char.ofNat 0x301]),
    (Char.ofNat 0x3B0, [Char.ofNat 0x3A5, Char.ofNat 0x308, Char.ofNat 0x301]),
    (Char.ofNat 0x587, [Char.ofNat 0x535, Char.ofNat 0x552]),
    (Char.ofNat 0x1E96, ['H', Char.ofNat 0x331]),
    (Char.ofNat 0x1E97, ['T', Char.ofNat 0x308]),
    (Char.ofNat 0x1E98, ['W', Char.ofNat 0x30A]),
    (Char.ofNat 0x1E99, ['Y', Char.ofNat 0x30A]),
    (Char.ofNat 0x1E9A, ['A', Char.ofNat 0x2BE]),
    (Char.ofNat 0x1F50, [Char.ofNat 0x3A5, Char.ofNat 0x313]),
    (Char.ofNat 0x1F52, [Char.ofNat 0x3A5, Char.ofNat 0x313, Char.ofNat 0x300]),
    (Char.ofNat 0x1F54, [Char.ofNat 0x3A5, Char.ofNat 0x313, Char.ofNat 0x301]),
    (Char.ofNat 0x1F56, [Char.ofNat 0x3A5, Char.ofNat 0x313, Char.ofNat 0x342]),
    (Char.ofNat 0xFB00, ['F', 'F']),
    (Char.ofNat 0xFB01, ['F', 'I']),
    (Char.ofNat 0xFB02, ['F', 'L']),
    (Char.ofNat 0xFB03, ['F', 'F', 'I']),
    (Char.ofNat 0xFB04, ['F', 'F', 'L']),
    (Char.ofNat 0xFB05, ['S', 'T']),
    (Char.ofNat 0xFB06, ['S', 'T']),
    (Char.ofNat 0xFB13, [Char.ofNat 0x544, Char.ofNat 0x546]),
    (Char.ofNat 0xFB14, [Char.ofNat 0x544, Char.ofNat 0x535]),
    (Char.ofNat 0xFB15, [Char.ofNat 0x544, Char.ofNat 0x53B]),
    (Char.ofNat 0xFB16, [Char.ofNat 0x54E, Char.ofNat 0x546]),
    (Char.ofNat 0xFB17, [Char.ofNat 0x544, Char.ofNat 0x53D]) ]

/-- Model of `String.prototype.toUpperCase` on one character: the Unicode
full uppercase mapping, which maps a character to a sequence of one to three
characters — the SpecialCasing expansions above, the ASCII and Latin-1
single-character mappings (a–z, µ, à–þ except ÷, ÿ), and identity elsewhere
(the remaining single-character mappings, e.g. for Greek or Cyrillic
letters, never change a string's length and are not distinguished here). -/
def jsToUpperChar (c : Char) : List Char :=
  match upperExpansions.find? (fun p => p.1 = c) with
  | some p => p.2
  | none =>
    if 97 ≤ c.toNat ∧ c.toNat ≤ 122 then [Char.ofNat (c.toNat - 32)]
    else if 0xE0 ≤ c.toNat ∧ c.toNat ≤ 0xFE ∧ c.toNat ≠ 0xF7 then
      [Char.ofNat (c.toNat - 32)]
    else if c = Char.ofNat 0xB5 then [Char.ofNat 0x39C]
    else if c = Char.ofNat 0xFF then [Char.ofNat 0x178]
    else [c]

/-- Model of `String.prototype.toUpperCase` on a string: concatenation of
the per-character full uppercase mappings. -/
def jsToUpperString (l : List Char) : List Char :=
  l.flatMap jsToUpperChar

/-- `getInitials` from `app.js` (lines 7–19):
```js
const handle = participant.split("@")[0];
const parts = handle.split(/[._-]+/).filter(Boolean);
const letters = parts.length ? parts : [handle];
const initials = letters.slice(0, 2).map((part) => part.trim()[0])
  .filter(Boolean).join("").toUpperCase();
return initials || "?";
```
`part.trim()[0]` is `undefined` on an empty trimmed piece, which
`filter(Boolean)` removes, hence the `filterMap` with `head?`. -/
def getInitials (participant : List Char) : List Char :=
  let handle := (jsSplitOnChar '@' participant).headD []
  let parts := (jsSplitSepRuns handle).filter (fun p => !p.isEmpty)
  let letters := if parts.isEmpty then [handle] else parts
  let initials :=
    jsToUpperString
      (((letters.take 2).map (fun part => (jsTrim part).head?)).filterMap id)
  if initials.isEmpty then ['?'] else initials

/-- The spec's notion of splitting the handle: the maximal runs of
non-separator characters (splitting on runs of `.`, `_`, `-` and discarding
the empty pieces leaves exactly these runs). -/
def nonSepRuns : List Char → List (List Char)
  | [] => []
  | c :: rest =>
    if isSep c then nonSepRuns rest
    else
      match rest with
      | [] => [[c]]
      | c2 :: _ =>
        if isSep c2 then [c] :: nonSepRuns rest
        else
          match nonSepRuns rest with
          | [] => [[c]]
          | r :: rs => (c :: r) :: rs

/-- The spec's six-step label derivation (§4.2 of the spec), written
independently of `getInitials`:
1. the handle is the part of the identifier before the first `@`;
2. split the handle on runs of `.`, `_`, `-`, discarding empty pieces;
3. if no pieces remain, use the whole handle as the single piece;
4. take up to the first two pieces and each piece's first character after
   trimming, discarding pieces that trim to empty;
5. concatenate and upper-case;
6. an empty result becomes `"?"`. -/
def specLabel (s : List Char) : List Char :=
  let handle := s.takeWhile (fun c => c ≠ '@')
  let pieces := nonSepRuns handle
  let chosen := if pieces.isEmpty then [handle] else pieces
  let firsts := (chosen.take 2).filterMap (fun p => (jsTrim p).head?)
  let label := jsToUpperString firsts
  if label.isEmpty then ['?'] else label

theorem jsSplitOnChar_ne_nil (sep : Char) (l : List Char) :
    jsSplitOnChar sep l ≠ [] := by
  induction l with
  | nil => simp [jsSplitOnChar]
  | cons c rest ih =>
    simp only [jsSplitOnChar]
    split
    · simp
    · cases h : jsSplitOnChar sep rest with
      | nil => exact absurd h ih
      | cons p ps => simp

theorem jsSplitOnChar_head (sep : Char) (l : List Char) :
    (jsSplitOnChar sep l).headD [] = l.takeWhile (fun c => c ≠ sep) := by
  induction l with
  | nil => simp [jsSplitOnChar]
  | cons c rest ih =>
    simp only [jsSplitOnChar]
    by_cases hc : c = sep
    · simp [hc, List.takeWhile_cons]
    · simp only [if_neg hc]
      cases h : jsSplitOnChar sep rest with
      | nil => exact absurd h (jsSplitOnChar_ne_nil sep rest)
      | cons p ps =>
        have := ih
        rw [h] at this
        simp only [List.headD_cons] at this ⊢
        simp [List.takeWhile_cons, hc, this, decide_not]


theorem jsSplitSepRuns_ne_nil (l : List Char) : jsSplitSepRuns l ≠ [] := by
  induction l with
  | nil => simp [jsSplitSepRuns]
  | cons c rest ih =>
    cases rest with
    | nil =>
      rw [jsSplitSepRuns.eq_2]
      split
      · simp
      · simp [jsSplitSepRuns]
    | cons c2 rest2 =>
      rw [jsSplitSepRuns.eq_3]
      split
      · split
        · exact ih
        · simp
      · cases h : jsSplitSepRuns (c2 :: rest2) with
        | nil => exact absurd h ih
        | cons p ps => simp

theorem jsSplitSepRuns_head_of_sep :
    ∀ l : List Char, (∀ c, l.head? = some c → isSep c = true) →
      (jsSplitSepRuns l).headD [] = [] := by
  intro l
  induction l with
  | nil => intro _; simp [jsSplitSepRuns]
  | cons c rest ih =>
    intro h
    have hc : isSep c = true := h c rfl
    cases rest with
    | nil => rw [jsSplitSepRuns.eq_2, if_pos hc]; simp
    | cons c2 rest2 =>
      rw [jsSplitSepRuns.eq_3, if_pos hc]
      by_cases h2 : isSep c2 = true
      · rw [if_pos h2]
        exact ih (by intro d hd; simp at hd; rwa [← hd])
      · rw [if_neg h2]; simp

theorem jsSplitSepRuns_cons_nonsep (c : Char) (rest : List Char)
    (hc : ¬ isSep c = true) :
    ∃ q qs, jsSplitSepRuns (c :: rest) = (c :: q) :: qs ∧
      jsSplitSepRuns rest = q :: qs := by
  cases h : jsSplitSepRuns rest with
  | nil => exact absurd h (jsSplitSepRuns_ne_nil rest)
  | cons p ps =>
    refine ⟨p, ps, ?_, rfl⟩
    cases rest with
    | nil =>
      simp only [jsSplitSepRuns] at h
      injection h with h1 h2
      subst h1; subst h2
      rw [jsSplitSepRuns.eq_2, if_neg hc]
      rfl
    | cons c2 rest2 =>
      rw [jsSplitSepRuns.eq_3, if_neg hc, h]

theorem filter_jsSplitSepRuns (l : List Char) :
    (jsSplitSepRuns l).filter (fun p => !p.isEmpty) = nonSepRuns l := by
  induction l with
  | nil => simp [jsSplitSepRuns, nonSepRuns]
  | cons c rest ih =>
    by_cases hc : isSep c = true
    · cases rest with
      | nil => simp [jsSplitSepRuns, hc, nonSepRuns]
      | cons c2 rest2 =>
        have hrhs : nonSepRuns (c :: c2 :: rest2) = nonSepRuns (c2 :: rest2) := by
          rw [nonSepRuns.eq_3, if_pos hc]
        rw [hrhs]
        by_cases h2 : isSep c2 = true
        · rw [jsSplitSepRuns.eq_3, if_pos hc, if_pos h2]
          exact ih
        · rw [jsSplitSepRuns.eq_3, if_pos hc, if_neg h2]
          simpa [List.filter_cons] using ih
    · obtain ⟨q, qs, hsplit, hrest⟩ := jsSplitSepRuns_cons_nonsep c rest hc
      rw [hsplit]
      cases rest with
      | nil =>
        simp only [jsSplitSepRuns] at hrest
        obtain ⟨rfl, rfl⟩ : q = [] ∧ qs = [] := by
          constructor <;> injection hrest with h1 h2 <;> simp_all
        rw [nonSepRuns.eq_2, if_neg hc]
        simp [List.filter_cons]
      | cons c2 rest2 =>
        rw [hrest] at ih
        by_cases h2 : isSep c2 = true
        · have hq : q = [] := by
            have := jsSplitSepRuns_head_of_sep (c2 :: rest2)
              (by intro d hd; simp at hd; rwa [← hd])
            rw [hrest] at this
            simpa using this
          subst hq
          have ih2 : List.filter (fun p => !p.isEmpty) qs = nonSepRuns (c2 :: rest2) := by
            simpa [List.filter_cons] using ih
          have hrhs : nonSepRuns (c :: c2 :: rest2) =
              [c] :: nonSepRuns (c2 :: rest2) := by
            rw [nonSepRuns.eq_3, if_neg hc, if_pos h2]
          rw [hrhs, ← ih2]
          simp [List.filter_cons]
        · obtain ⟨q2, qs2, hsplit2, _⟩ := jsSplitSepRuns_cons_nonsep c2 rest2 h2
          rw [hrest] at hsplit2
          injection hsplit2 with hq hqs
          have ih2 : q :: List.filter (fun p => !p.isEmpty) qs =
              nonSepRuns (c2 :: rest2) := by
            rw [← ih]
            simp [List.filter_cons, hq]
          have hrhs : nonSepRuns (c :: c2 :: rest2) =
              (c :: q) :: List.filter (fun p => !p.isEmpty) qs := by
            rw [nonSepRuns.eq_3, if_neg hc, if_neg h2, ← ih2]
          rw [hrhs]
          simp [List.filter_cons, hq]

theorem char_toNat_ofNat (n : Nat) (h : n.isValidChar) :
    (Char.ofNat n).toNat = n := by
  simp only [Char.ofNat, dif_pos h, Char.ofNatAux, Char.toNat, UInt32.toNat]
  norm_num [BitVec.toNat_ofNat]

theorem jsToUpperChar_eq_find (c : Char) (p : Char × List Char)
    (h : upperExpansions.find? (fun q => q.1 = c) = some p) :
    jsToUpperChar c = p.2 := by
  unfold jsToUpperChar
  rw [h]

theorem jsToUpperChar_eq_default (c : Char)
    (h : upperExpansions.find? (fun q => q.1 = c) = none) :
    jsToUpperChar c =
      (if 97 ≤ c.toNat ∧ c.toNat ≤ 122 then [Char.ofNat (c.toNat - 32)]
       else if 0xE0 ≤ c.toNat ∧ c.toNat ≤ 0xFE ∧ c.toNat ≠ 0xF7 then
         [Char.ofNat (c.toNat - 32)]
       else if c = Char.ofNat 0xB5 then [Char.ofNat 0x39C]
       else if c = Char.ofNat 0xFF then [Char.ofNat 0x178]
       else [c]) := by
  unfold jsToUpperChar
  rw [h]

theorem upperExpansions_keys_ge :
    ∀ p ∈ upperExpansions, 0xDF ≤ p.1.toNat := by decide

theorem jsToUpperChar_fix (d : Char) (hlt : d.toNat < 0xDF)
    (hl : ¬(97 ≤ d.toNat ∧ d.toNat ≤ 122)) (hmu : d.toNat ≠ 0xB5) :
    jsToUpperChar d = [d] := by
  have hfd : upperExpansions.find? (fun q => q.1 = d) = none := by
    rw [List.find?_eq_none]
    intro p hp
    have hge := upperExpansions_keys_ge p hp
    simp only [decide_eq_true_eq]
    intro he
    rw [he] at hge
    omega
  have hb5 : ¬ d = Char.ofNat 0xB5 := by
    intro he
    have hteq : d.toNat = 0xB5 := by
      rw [he]; exact char_toNat_ofNat _ (Or.inl (by norm_num))
    omega
  have hff : ¬ d = Char.ofNat 0xFF := by
    intro he
    have hteq : d.toNat = 0xFF := by
      rw [he]; exact char_toNat_ofNat _ (Or.inl (by norm_num))
    omega
  rw [jsToUpperChar_eq_default d hfd, if_neg hl, if_neg (by omega),
    if_neg hb5, if_neg hff]

theorem jsToUpperChar_spec (c : Char) :
    jsToUpperChar c ≠ [] ∧ (jsToUpperChar c).length ≤ 3 ∧
      ∀ d ∈ jsToUpperChar c, jsToUpperChar d = [d] := by
  have htab : ∀ p ∈ upperExpansions,
      p.2 ≠ [] ∧ p.2.length ≤ 3 ∧ ∀ d ∈ p.2, jsToUpperChar d = [d] := by
    decide
  cases hfind : upperExpansions.find? (fun q => q.1 = c) with
  | some p =>
    rw [jsToUpperChar_eq_find c p hfind]
    exact htab p (List.mem_of_find?_eq_some hfind)
  | none =>
    rw [jsToUpperChar_eq_default c hfind]
    by_cases h1 : 97 ≤ c.toNat ∧ c.toNat ≤ 122
    · rw [if_pos h1]
      have hd : (Char.ofNat (c.toNat - 32)).toNat = c.toNat - 32 :=
        char_toNat_ofNat _ (Or.inl (by omega))
      refine ⟨by simp, by simp, ?_⟩
      intro e he
      simp only [List.mem_singleton] at he
      subst he
      exact jsToUpperChar_fix _ (by omega) (by omega) (by omega)
    · rw [if_neg h1]
      by_cases h2 : 0xE0 ≤ c.toNat ∧ c.toNat ≤ 0xFE ∧ c.toNat ≠ 0xF7
      · rw [if_pos h2]
        have hd : (Char.ofNat (c.toNat - 32)).toNat = c.toNat - 32 :=
          char_toNat_ofNat _ (Or.inl (by omega))
        refine ⟨by simp, by simp, ?_⟩
        intro e he
        simp only [List.mem_singleton] at he
        subst he
        exact jsToUpperChar_fix _ (by omega) (by omega) (by omega)
      · rw [if_neg h2]
        by_cases h3 : c = Char.ofNat 0xB5
        · rw [if_pos h3]
          refine ⟨by simp, by simp, ?_⟩
          intro e he
          simp only [List.mem_singleton] at he
          subst he
          decide
        · rw [if_neg h3]
          by_cases h4 : c = Char.ofNat 0xFF
          · rw [if_pos h4]
            refine ⟨by simp, by simp, ?_⟩
            intro e he
            simp only [List.mem_singleton] at he
            subst he
            decide
          · rw [if_neg h4]
            refine ⟨by simp, by simp, ?_⟩
            intro e he
            simp only [List.mem_singleton] at he
            subst he
            rw [jsToUpperChar_eq_default e hfind, if_neg h1, if_neg h2,
              if_neg h3, if_neg h4]

theorem jsToUpperString_fix (l : List Char)
    (h : ∀ d ∈ l, jsToUpperChar d = [d]) : jsToUpperString l = l := by
  induction l with
  | nil => rfl
  | cons c cs ih =>
    simp only [jsToUpperString, List.flatMap_cons] at ih ⊢
    rw [h c (by simp), ih (fun d hd => h d (by simp [hd]))]
    rfl

theorem jsToUpperString_idem (xs : List Char) :
    jsToUpperString (jsToUpperString xs) = jsToUpperString xs := by
  induction xs with
  | nil => rfl
  | cons c cs ih =>
    have hsplit : jsToUpperString (c :: cs) =
        jsToUpperChar c ++ jsToUpperString cs := by
      simp [jsToUpperString, List.flatMap_cons]
    rw [hsplit]
    have happ : jsToUpperString (jsToUpperChar c ++ jsToUpperString cs) =
        jsToUpperString (jsToUpperChar c) ++
          jsToUpperString (jsToUpperString cs) := by
      simp [jsToUpperString, List.flatMap_append]
    rw [happ, ih, jsToUpperString_fix _ (jsToUpperChar_spec c).2.2]

theorem jsToUpperString_length (xs : List Char) :
    (jsToUpperString xs).length ≤ 3 * xs.length := by
  induction xs with
  | nil => simp [jsToUpperString]
  | cons c cs ih =>
    have hsplit : jsToUpperString (c :: cs) =
        jsToUpperChar c ++ jsToUpperString cs := by
      simp [jsToUpperString, List.flatMap_cons]
    rw [hsplit]
    have hc := (jsToUpperChar_spec c).2.1
    simp only [List.length_append, List.length_cons]
    omega

/-- C1: for every participant identifier string, `getInitials` computes
exactly the spec's six-step label derivation (`specLabel`): handle before the
first `@`, split on separator runs discarding empty pieces, whole-handle
fallback, first characters of the first two trimmed pieces, upper-cased, with
`"?"` for an empty result. -/
theorem getInitials_matches_spec_derivation (s : List Char) :
    getInitials s = specLabel s := by
  simp only [getInitials, specLabel]
  rw [jsSplitOnChar_head, filter_jsSplitSepRuns, List.filterMap_map]
  rfl

/-- C2 counterexample: `getInitials "---@x.com"` is not `"?"` (the handle
`"---"` survives as the fallback piece, trims to itself, and contributes its
first character `'-'`). -/
theorem getInitials_dashes_not_question :
    getInitials ("---@x.com".data) ≠ "?".data := by decide

/-- C2 amended: `getInitials "---@x.com"` returns the single-character label
`"-"`: splitting yields zero pieces, the fallback piece is the whole handle
`"---"`, which is non-empty after trimming, so its first character `'-'` is
kept (and is unchanged by upper-casing). -/
theorem getInitials_dashes_eq_dash :
    getInitials ("---@x.com".data) = "-".data := by decide

/-- C9 counterexample: the label is not always of length at most 2, because
`toUpperCase` uses Unicode full case mappings and can expand:
`getInitials "ß.ß@x.com"` is `"SSSS"` — both pieces contribute `'ß'`, whose
full uppercase mapping is `"SS"` — of length 4. -/
theorem getInitials_eszett_expands :
    getInitials ("ß.ß@x.com".data) = "SSSS".data ∧
      ¬ (getInitials ("ß.ß@x.com".data)).length ≤ 2 := by decide

/-- C9 amended: for every input string, `getInitials` returns a non-empty
string that is unchanged by upper-casing, of length at most 6 (at most two
pieces each contribute one character, and a character's full uppercase
mapping has at most three characters); this holds for the empty string,
strings with no `@`, and strings whose handle is empty.  The original bound
2 fails because the full uppercase mapping can expand a character. -/
theorem getInitials_shape_invariants (s : List Char) :
    getInitials s ≠ [] ∧ (getInitials s).length ≤ 6 ∧
      jsToUpperString (getInitials s) = getInitials s := by
  have key : ∀ xs : List Char, xs.length ≤ 2 →
      (if (jsToUpperString xs).isEmpty then ['?'] else jsToUpperString xs)
          ≠ [] ∧
      (if (jsToUpperString xs).isEmpty then ['?'] else
        jsToUpperString xs).length ≤ 6 ∧
      jsToUpperString
          (if (jsToUpperString xs).isEmpty then ['?']
           else jsToUpperString xs) =
        (if (jsToUpperString xs).isEmpty then ['?']
         else jsToUpperString xs) := by
    intro xs hlen
    by_cases he : (jsToUpperString xs).isEmpty
    · simp only [if_pos he]
      refine ⟨by simp, by decide, by decide⟩
    · simp only [if_neg he]
      refine ⟨by simpa using he, ?_, jsToUpperString_idem xs⟩
      have hlb := jsToUpperString_length xs
      omega
  exact key
    ((((if ((jsSplitSepRuns ((jsSplitOnChar '@' s).headD [])).filter
            (fun p => !p.isEmpty)).isEmpty
        then [(jsSplitOnChar '@' s).headD []]
        else (jsSplitSepRuns ((jsSplitOnChar '@' s).headD [])).filter
            (fun p => !p.isEmpty)).take 2).map
        (fun part => (jsTrim part).head?)).filterMap id)
    (le_trans (List.length_filterMap_le _ _)
      (by rw [List.length_map, List.length_take]; exact min_le_left _ _))

/-- The per-activity record of the `GET /activities` response body:
`{description, schedule, max_participants, participants: [ids...]}`.
There is no stored spots-left field. -/
structure ActivityDetails where
  description : List Char
  schedule : List Char
  max_participants : Int
  participants : List (List Char)

/-- One `li` of a rendered participants list: either a `participant-item`
(avatar initials plus name) or the `empty-participants` placeholder. -/
inductive ParticipantEntry where
  | item (avatar : List Char) (pname : List Char)
  | placeholder (text : List Char)
deriving DecidableEq

/-- The rendered `activity-card` (`app.js` lines 33–114). -/
structure ActivityCard where
  title : List Char
  description : List Char
  scheduleText : List Char
  spotsLeft : Int
  availabilityText : List Char
  participants : List ParticipantEntry
deriving DecidableEq

/-- Rendering of one activity card from a fetched `[name, details]` entry
(`app.js` lines 32–114): `spotsLeft` is computed as
`details.max_participants - details.participants.length`; a non-empty
participants list renders one item per participant with `getInitials` as the
avatar text, and an empty list renders the `"No participants yet"`
placeholder. -/
def renderActivityCard (name : List Char) (d : ActivityDetails) :
    ActivityCard :=
  let spotsLeft : Int := d.max_participants - d.participants.length
  { title := name
    description := d.description
    scheduleText := " ".data ++ d.schedule
    spotsLeft := spotsLeft
    availabilityText := " ".data ++ (toString spotsLeft).data ++
      " spots left".data
    participants :=
      if d.participants.length ≠ 0 then
        d.participants.map (fun p => .item (getInitials p) p)
      else [.placeholder ("No participants yet".data)] }

/-- Rendering of the whole fetched activities object (insertion order of
`Object.entries`). -/
def renderActivities (data : List (List Char × ActivityDetails)) :
    List ActivityCard :=
  data.map (fun nd => renderActivityCard nd.1 nd.2)

/-- The URI-unreserved characters that `encodeURIComponent` leaves intact:
`A–Z a–z 0–9 - _ . ! ~ * ( )` and the apostrophe (code 39). -/
def isUriUnreserved (c : Char) : Bool :=
  (65 ≤ c.toNat && c.toNat ≤ 90) || (97 ≤ c.toNat && c.toNat ≤ 122) ||
  (48 ≤ c.toNat && c.toNat ≤ 57) ||
  c = '-' || c = '_' || c = '.' || c = '!' || c = '~' || c = '*' ||
  c = Char.ofNat 39 || c = '(' || c = ')'

/-- Upper-case hexadecimal digit for `n < 16`. -/
def hexDigitChar (n : Nat) : Char :=
  if n < 10 then Char.ofNat (48 + n) else Char.ofNat (55 + n)

/-- UTF-8 encoding of one character, as byte values. -/
def utf8Bytes (c : Char) : List Nat :=
  let n := c.toNat
  if n < 0x80 then [n]
  else if n < 0x800 then [0xC0 + n / 64, 0x80 + n % 64]
  else if n < 0x10000 then [0xE0 + n / 4096, 0x80 + n / 64 % 64, 0x80 + n % 64]
  else [0xF0 + n / 262144, 0x80 + n / 4096 % 64, 0x80 + n / 64 % 64,
    0x80 + n % 64]

/-- `%XX` escape of one byte. -/
def percentEscape (b : Nat) : List Char :=
  ['%', hexDigitChar (b / 16), hexDigitChar (b % 16)]

/-- Model of `encodeURIComponent`: unreserved characters pass through,
every other character is written as the `%XX` escapes of its UTF-8 bytes. -/
def encodeURIComponent (s : List Char) : List Char :=
  s.flatMap (fun c =>
    if isUriUnreserved c then [c] else (utf8Bytes c).flatMap percentEscape)

/-- The signup request URL template
`/activities/${encodeURIComponent(activity)}/signup?email=${encodeURIComponent(email)}`
(`app.js` line 179). -/
def signupUrl (activity email : List Char) : List Char :=
  "/activities/".data ++ encodeURIComponent activity ++
    "/signup?email=".data ++ encodeURIComponent email

/-- The unregister request URL template
`/activities/${encodeURIComponent(activity)}/unregister?email=${encodeURIComponent(participant)}`
(`app.js` line 132). -/
def unregisterUrl (activity email : List Char) : List Char :=
  "/activities/".data ++ encodeURIComponent activity ++
    "/unregister?email=".data ++ encodeURIComponent email

/-- An HTTP request as issued by `fetch(url, {method})`. -/
structure Request where
  url : List Char
  method : List Char
deriving DecidableEq

/-- The parsed JSON body of a signup/unregister response; both fields may be
absent. -/
structure JsonResult where
  message : Option (List Char)
  detail : Option (List Char)

/-- Outcome of an awaited `fetch`: a 2xx response (`response.ok`), a non-2xx
response, or a thrown transport error. -/
inductive ServerResponse where
  | ok (result : JsonResult)
  | notOk (result : JsonResult)
  | transportError

def ServerResponse.isOk : ServerResponse → Bool
  | .ok _ => true
  | _ => false

/-- The `#message` element: its text, CSS class and hidden flag. -/
structure MessageBox where
  text : List Char
  cssClass : List Char
  hidden : Bool
deriving DecidableEq

/-- The client-visible state the handlers mutate: the message box and the
currently displayed activity cards. -/
structure UiState where
  message : MessageBox
  displayed : List ActivityCard

/-- Model of the JavaScript expression `a || b` for a string field that can
be absent: `undefined` and the empty string are falsy. -/
def jsOrElse (a : Option (List Char)) (b : List Char) : List Char :=
  match a with
  | some s => if s.isEmpty then b else s
  | none => b

/-- Model of `element.textContent = x` for possibly-undefined `x`
(assigning `undefined` renders the string `"undefined"`). -/
def jsTextContent (a : Option (List Char)) : List Char :=
  a.getD ("undefined".data)

/-- Result of running one handler: the updated UI state, the request it
issued, whether it re-fetched and re-rendered the activity list, and the
delay of the scheduled message auto-hide, if any was scheduled. -/
structure StepResult where
  ui : UiState
  request : Request
  didRefetch : Bool
  hideDelayMs : Option Nat

/-- Model of the signup form submit handler (`app.js` lines 171–209): POST to
the signup URL; on `response.ok` show `result.message` as a success message
and re-fetch/re-render (`fresh` is the re-fetched data); on a non-2xx
response show `result.detail || "An error occurred"` as an error and leave
the displayed list alone; in both cases un-hide the message and schedule
hiding it after 5000 ms.  On a thrown fetch error show the literal fallback
text, un-hide the message, and schedule nothing. -/
def signupSubmit (st : UiState) (activity email : List Char)
    (resp : ServerResponse) (fresh : List (List Char × ActivityDetails)) :
    StepResult :=
  let req : Request := { url := signupUrl activity email
                         method := "POST".data }
  match resp with
  | .ok result =>
    { ui := { message := { text := jsTextContent result.message
                           cssClass := "success".data
                           hidden := false }
              displayed := renderActivities fresh }
      request := req, didRefetch := true, hideDelayMs := some 5000 }
  | .notOk result =>
    { ui := { message := { text := jsOrElse result.detail
                             ("An error occurred".data)
                           cssClass := "error".data
                           hidden := false }
              displayed := st.displayed }
      request := req, didRefetch := false, hideDelayMs := some 5000 }
  | .transportError =>
    { ui := { message := { text := "Failed to sign up. Please try again.".data
                           cssClass := "error".data
                           hidden := false }
              displayed := st.displayed }
      request := req, didRefetch := false, hideDelayMs := none }

/-- Model of the delete-button click handler (`app.js` lines 125–162): POST
to the unregister URL; on `response.ok` show `result.message` as a success
message and re-fetch/re-render; on a non-2xx response show
`result.detail || "An error occurred"` as an error and leave the displayed
list alone; in both cases un-hide the message and schedule hiding it after
5000 ms.  On a thrown fetch error show the literal fallback text, un-hide
the message, and schedule nothing. -/
def deleteClick (st : UiState) (activity participant : List Char)
    (resp : ServerResponse) (fresh : List (List Char × ActivityDetails)) :
    StepResult :=
  let req : Request := { url := unregisterUrl activity participant
                         method := "POST".data }
  match resp with
  | .ok result =>
    { ui := { message := { text := jsTextContent result.message
                           cssClass := "success".data
                           hidden := false }
              displayed := renderActivities fresh }
      request := req, didRefetch := true, hideDelayMs := some 5000 }
  | .notOk result =>
    { ui := { message := { text := jsOrElse result.detail
                             ("An error occurred".data)
                           cssClass := "error".data
                           hidden := false }
              displayed := st.displayed }
      request := req, didRefetch := false, hideDelayMs := some 5000 }
  | .transportError =>
    { ui := { message := { text :=
                             "Failed to remove participant. Please try again.".data
                           cssClass := "error".data
                           hidden := false }
              displayed := st.displayed }
      request := req, didRefetch := false, hideDelayMs := none }

theorem jsOrElse_ne_nil (a : Option (List Char)) (b : List Char)
    (hb : b ≠ []) : jsOrElse a b ≠ [] := by
  cases a with
  | none => exact hb
  | some s =>
    simp only [jsOrElse]
    split
    · exact hb
    · next hcond =>
      intro h
      rw [h] at hcond
      simp at hcond

def sampleUi : UiState :=
  { message := { text := [], cssClass := [], hidden := true }, displayed := [] }

def sampleDetailsEmpty : ActivityDetails :=
  { description := "Learn".data, schedule := "Fri".data,
    max_participants := 12, participants := [] }

def sampleDetailsOne : ActivityDetails :=
  { description := "Learn".data, schedule := "Fri".data,
    max_participants := 12,
    participants := ["michael@mergington.edu".data] }

/-- C3: the spots-left value of every rendered activity card equals
`max_participants - participants.length`, computed on demand from the fetched
record (whose shape carries no stored spots field), and the availability line
displays exactly that number. -/
theorem renderActivityCard_spotsLeft (name : List Char) (d : ActivityDetails) :
    (renderActivityCard name d).spotsLeft =
      d.max_participants - (d.participants.length : Int) ∧
    (renderActivityCard name d).availabilityText =
      " ".data ++ (toString (d.max_participants -
        (d.participants.length : Int))).data ++ " spots left".data :=
  ⟨rfl, rfl⟩

/-- C4: for a non-2xx signup or withdraw response, the displayed message is
the body's `detail` field verbatim when that field is present and non-empty
(truthy), and the literal `"An error occurred"` when it is absent or empty. -/
theorem errorMessage_detail_or_fallback (st : UiState)
    (activity email : List Char) (fresh : List (List Char × ActivityDetails))
    (result : JsonResult) :
    (∀ d, result.detail = some d → d.isEmpty = false →
      (signupSubmit st activity email (.notOk result) fresh).ui.message.text
        = d ∧
      (deleteClick st activity email (.notOk result) fresh).ui.message.text
        = d) ∧
    ((result.detail = none ∨ result.detail = some []) →
      (signupSubmit st activity email (.notOk result) fresh).ui.message.text
        = "An error occurred".data ∧
      (deleteClick st activity email (.notOk result) fresh).ui.message.text
        = "An error occurred".data) := by
  constructor
  · intro d hd hne
    simp [signupSubmit, deleteClick, jsOrElse, hd, hne]
  · rintro (hd | hd) <;> simp [signupSubmit, deleteClick, jsOrElse, hd]

/-- C4 witness: with `detail = "Already signed up"` the text is surfaced
verbatim; with no `detail` the fallback text is shown. -/
theorem errorMessage_detail_or_fallback_witness :
    (signupSubmit sampleUi ("Chess Club".data) ("a@x.com".data)
      (.notOk { message := none, detail := some ("Already signed up".data) })
      []).ui.message.text = "Already signed up".data ∧
    (signupSubmit sampleUi ("Chess Club".data) ("a@x.com".data)
      (.notOk { message := none, detail := none }) []).ui.message.text =
      "An error occurred".data := by
  constructor
  · exact ((errorMessage_detail_or_fallback sampleUi ("Chess Club".data)
      ("a@x.com".data) [] _).1 _ rfl (by decide)).1
  · exact ((errorMessage_detail_or_fallback sampleUi ("Chess Club".data)
      ("a@x.com".data) [] _).2 (Or.inl rfl)).1

/-- C5: every signup request is issued as a POST to
`/activities/{name}/signup?email={id}` and every withdraw request as a POST
to `/activities/{name}/unregister?email={id}`, with the activity name and
participant identifier embedded URI-encoded. -/
theorem request_urls (st : UiState) (activity email : List Char)
    (resp resp2 : ServerResponse)
    (fresh fresh2 : List (List Char × ActivityDetails)) :
    (signupSubmit st activity email resp fresh).request =
      { url := "/activities/".data ++ encodeURIComponent activity ++
          "/signup?email=".data ++ encodeURIComponent email
        method := "POST".data } ∧
    (deleteClick st activity email resp2 fresh2).request =
      { url := "/activities/".data ++ encodeURIComponent activity ++
          "/unregister?email=".data ++ encodeURIComponent email
        method := "POST".data } := by
  cases resp <;> cases resp2 <;> exact ⟨rfl, rfl⟩

/-- C6: a handler re-fetches and re-renders the activity list exactly when
the response is `response.ok`; on a non-2xx or transport-errored mutation no
re-fetch happens, the displayed list stays what it was, and a non-empty
error-classed message is shown un-hidden instead. -/
theorem refetch_exactly_on_ok (st : UiState) (activity email : List Char)
    (resp : ServerResponse) (fresh : List (List Char × ActivityDetails)) :
    ((signupSubmit st activity email resp fresh).didRefetch = true ↔
      resp.isOk = true) ∧
    ((deleteClick st activity email resp fresh).didRefetch = true ↔
      resp.isOk = true) ∧
    (resp.isOk = true →
      (signupSubmit st activity email resp fresh).ui.displayed =
        renderActivities fresh ∧
      (deleteClick st activity email resp fresh).ui.displayed =
        renderActivities fresh) ∧
    (resp.isOk = false →
      (signupSubmit st activity email resp fresh).didRefetch = false ∧
      (signupSubmit st activity email resp fresh).ui.displayed =
        st.displayed ∧
      (signupSubmit st activity email resp fresh).ui.message.cssClass =
        "error".data ∧
      (signupSubmit st activity email resp fresh).ui.message.hidden = false ∧
      (signupSubmit st activity email resp fresh).ui.message.text ≠ [] ∧
      (deleteClick st activity email resp fresh).didRefetch = false ∧
      (deleteClick st activity email resp fresh).ui.displayed =
        st.displayed ∧
      (deleteClick st activity email resp fresh).ui.message.cssClass =
        "error".data ∧
      (deleteClick st activity email resp fresh).ui.message.hidden = false ∧
      (deleteClick st activity email resp fresh).ui.message.text ≠ []) := by
  cases resp with
  | ok result =>
    refine ⟨by simp [signupSubmit, ServerResponse.isOk],
      by simp [deleteClick, ServerResponse.isOk], ?_, ?_⟩
    · intro _; exact ⟨rfl, rfl⟩
    · intro h; simp [ServerResponse.isOk] at h
  | notOk result =>
    refine ⟨by simp [signupSubmit, ServerResponse.isOk],
      by simp [deleteClick, ServerResponse.isOk], ?_, ?_⟩
    · intro h; simp [ServerResponse.isOk] at h
    · intro _
      exact ⟨rfl, rfl, rfl, rfl, jsOrElse_ne_nil _ _ (by decide),
        rfl, rfl, rfl, rfl, jsOrElse_ne_nil _ _ (by decide)⟩
  | transportError =>
    refine ⟨by simp [signupSubmit, ServerResponse.isOk],
      by simp [deleteClick, ServerResponse.isOk], ?_, ?_⟩
    · intro h; simp [ServerResponse.isOk] at h
    · intro _
      exact ⟨rfl, rfl, rfl, rfl,
        (show ("Failed to sign up. Please try again.".data : List Char) ≠ []
          by decide),
        rfl, rfl, rfl, rfl,
        (show ("Failed to remove participant. Please try again.".data :
            List Char) ≠ [] by decide)⟩

/-- C6 witness: a failed signup leaves the displayed list unchanged, and a
successful withdraw triggers the re-fetch. -/
theorem refetch_exactly_on_ok_witness :
    (signupSubmit sampleUi ("Chess Club".data) ("a@x.com".data)
        (.notOk { message := none, detail := none }) []).ui.displayed =
      sampleUi.displayed ∧
    (deleteClick sampleUi ("Chess Club".data) ("a@x.com".data)
        (.ok { message := some ("done".data), detail := none })
        []).didRefetch = true := by
  constructor
  · exact ((refetch_exactly_on_ok sampleUi ("Chess Club".data)
      ("a@x.com".data) (.notOk { message := none, detail := none }) []
      ).2.2.2 rfl).2.1
  · exact (refetch_exactly_on_ok sampleUi ("Chess Club".data)
      ("a@x.com".data) (.ok { message := some ("done".data), detail := none })
      []).2.1.mpr rfl

/-- C7: an activity with an empty participants list renders exactly the one
`"No participants yet"` placeholder entry and no participant items; an
activity with at least one participant renders participant items only (no
placeholder). -/
theorem participants_list_placeholder (name : List Char)
    (d : ActivityDetails) :
    (d.participants = [] →
      (renderActivityCard name d).participants =
        [.placeholder ("No participants yet".data)]) ∧
    (d.participants ≠ [] →
      ∀ e ∈ (renderActivityCard name d).participants,
        ∃ a p, e = ParticipantEntry.item a p) := by
  constructor
  · intro h
    simp [renderActivityCard, h]
  · intro h e he
    have hl : d.participants.length ≠ 0 := by
      simpa [List.length_eq_zero] using h
    simp only [renderActivityCard, if_pos hl] at he
    obtain ⟨p, _, rfl⟩ := List.mem_map.mp he
    exact ⟨_, _, rfl⟩

/-- C7 witness: the two branches at concrete activities. -/
theorem participants_list_placeholder_witness :
    (renderActivityCard ("Chess Club".data) sampleDetailsEmpty).participants =
      [.placeholder ("No participants yet".data)] ∧
    ∃ a p, ParticipantEntry.item
        (getInitials ("michael@mergington.edu".data))
        ("michael@mergington.edu".data) = ParticipantEntry.item a p := by
  constructor
  · exact (participants_list_placeholder ("Chess Club".data)
      sampleDetailsEmpty).1 rfl
  · exact (participants_list_placeholder ("Chess Club".data)
      sampleDetailsOne).2 (by decide) _ (by decide)

/-- C8: after every signup or withdraw attempt that received a server
response (2xx or not), hiding the notification is scheduled after exactly
5000 ms, and the message box written by the handler is independent of the
previous UI state (the action replaces text and class) and is re-shown
(`hidden = false`). -/
theorem hide_timer_5000 (st1 st2 : UiState) (activity email : List Char)
    (resp : ServerResponse) (fresh : List (List Char × ActivityDetails))
    (h : resp ≠ ServerResponse.transportError) :
    (signupSubmit st1 activity email resp fresh).hideDelayMs = some 5000 ∧
    (deleteClick st1 activity email resp fresh).hideDelayMs = some 5000 ∧
    (signupSubmit st1 activity email resp fresh).ui.message =
      (signupSubmit st2 activity email resp fresh).ui.message ∧
    (deleteClick st1 activity email resp fresh).ui.message =
      (deleteClick st2 activity email resp fresh).ui.message ∧
    (signupSubmit st1 activity email resp fresh).ui.message.hidden = false ∧
    (deleteClick st1 activity email resp fresh).ui.message.hidden = false := by
  cases resp with
  | ok result => exact ⟨rfl, rfl, rfl, rfl, rfl, rfl⟩
  | notOk result => exact ⟨rfl, rfl, rfl, rfl, rfl, rfl⟩
  | transportError => exact absurd rfl h

/-- C8 witness: a successful signup schedules the 5000 ms auto-hide. -/
theorem hide_timer_5000_witness :
    (signupSubmit sampleUi ("Chess Club".data) ("a@x.com".data)
      (.ok { message := some ("ok".data), detail := none })
      []).hideDelayMs = some 5000 :=
  (hide_timer_5000 sampleUi sampleUi ("Chess Club".data) ("a@x.com".data)
    (.ok { message := some ("ok".data), detail := none }) []
    (fun h => ServerResponse.noConfusion h)).1

theorem char_toNat_lt (c : Char) : c.toNat < 1114112 := by
  rcases c.valid with h | ⟨_, h2⟩
  · exact Nat.lt_trans h (by norm_num)
  · exact h2

/-- Hexadecimal digit value of a character (upper or lower case). -/
def hexVal (c : Char) : Option Nat :=
  if 48 ≤ c.toNat ∧ c.toNat ≤ 57 then some (c.toNat - 48)
  else if 65 ≤ c.toNat ∧ c.toNat ≤ 70 then some (c.toNat - 55)
  else if 97 ≤ c.toNat ∧ c.toNat ≤ 102 then some (c.toNat - 87)
  else none

/-- Percent-decoding of a URI component into bytes: a `%` must be followed by
two hex digits; literal characters must be ASCII. -/
def percentDecode : List Char → Option (List Nat)
  | [] => some []
  | c :: rest =>
    if c = '%' then
      match rest with
      | h :: l :: rest2 =>
        match hexVal h, hexVal l with
        | some hv, some lv =>
          (percentDecode rest2).map (fun bs => (hv * 16 + lv) :: bs)
        | _, _ => none
      | _ => none
    else if c.toNat < 0x80 then
      (percentDecode rest).map (fun bs => c.toNat :: bs)
    else none


mutual

/-- UTF-8 decoding of a byte sequence. -/
def utf8Decode : List Nat → Option (List Char)
  | [] => some []
  | b :: bs =>
    if b < 0x80 then (utf8Decode bs).map (fun cs => Char.ofNat b :: cs)
    else if b < 0xC0 then none
    else if b < 0xE0 then utf8DecodeTwo b bs
    else if b < 0xF0 then utf8DecodeThree b bs
    else if b < 0xF8 then utf8DecodeFour b bs
    else none
termination_by l => l.length

/-- Continuation of `utf8Decode` for a two-byte sequence. -/
def utf8DecodeTwo : Nat → List Nat → Option (List Char)
  | b, b1 :: bs =>
    if 0x80 ≤ b1 && b1 < 0xC0 then
      (utf8Decode bs).map (fun cs =>
        Char.ofNat ((b - 0xC0) * 64 + (b1 - 0x80)) :: cs)
    else none
  | _, [] => none
termination_by _ l => l.length

/-- Continuation of `utf8Decode` for a three-byte sequence. -/
def utf8DecodeThree : Nat → List Nat → Option (List Char)
  | b, b1 :: b2 :: bs =>
    if (0x80 ≤ b1 && b1 < 0xC0) && (0x80 ≤ b2 && b2 < 0xC0) then
      (utf8Decode bs).map (fun cs =>
        Char.ofNat ((b - 0xE0) * 4096 + (b1 - 0x80) * 64 + (b2 - 0x80)) :: cs)
    else none
  | _, _ => none
termination_by _ l => l.length

/-- Continuation of `utf8Decode` for a four-byte sequence. -/
def utf8DecodeFour : Nat → List Nat → Option (List Char)
  | b, b1 :: b2 :: b3 :: bs =>
    if (0x80 ≤ b1 && b1 < 0xC0) && ((0x80 ≤ b2 && b2 < 0xC0) &&
        (0x80 ≤ b3 && b3 < 0xC0)) then
      (utf8Decode bs).map (fun cs =>
        Char.ofNat ((b - 0xF0) * 262144 + (b1 - 0x80) * 4096 +
          (b2 - 0x80) * 64 + (b3 - 0x80)) :: cs)
    else none
  | _, _ => none
termination_by _ l => l.length

end

/-- Model of `decodeURIComponent`: percent-decode to bytes, then UTF-8
decode. -/
def decodeURIComponent (s : List Char) : Option (List Char) :=
  (percentDecode s).bind utf8Decode

theorem utf8Decode_one (b : Nat) (bs : List Nat) (h : b < 0x80) :
    utf8Decode (b :: bs) = (utf8Decode bs).map (fun cs => Char.ofNat b :: cs)
    := by
  rw [utf8Decode, if_pos h]

theorem utf8Decode_two (b b1 : Nat) (bs : List Nat)
    (h : 0xC0 ≤ b ∧ b < 0xE0) (h1 : 0x80 ≤ b1 ∧ b1 < 0xC0) :
    utf8Decode (b :: b1 :: bs) = (utf8Decode bs).map (fun cs =>
      Char.ofNat ((b - 0xC0) * 64 + (b1 - 0x80)) :: cs) := by
  rw [utf8Decode, if_neg (by omega), if_neg (by omega), if_pos h.2]
  rw [utf8DecodeTwo, if_pos (by simp; omega)]

theorem utf8Decode_three (b b1 b2 : Nat) (bs : List Nat)
    (h : 0xE0 ≤ b ∧ b < 0xF0) (h1 : 0x80 ≤ b1 ∧ b1 < 0xC0)
    (h2 : 0x80 ≤ b2 ∧ b2 < 0xC0) :
    utf8Decode (b :: b1 :: b2 :: bs) = (utf8Decode bs).map (fun cs =>
      Char.ofNat ((b - 0xE0) * 4096 + (b1 - 0x80) * 64 + (b2 - 0x80)) :: cs)
    := by
  rw [utf8Decode, if_neg (by omega), if_neg (by omega), if_neg (by omega),
    if_pos h.2]
  rw [utf8DecodeThree, if_pos (by simp; omega)]

theorem utf8Decode_four (b b1 b2 b3 : Nat) (bs : List Nat)
    (h : 0xF0 ≤ b ∧ b < 0xF8) (h1 : 0x80 ≤ b1 ∧ b1 < 0xC0)
    (h2 : 0x80 ≤ b2 ∧ b2 < 0xC0) (h3 : 0x80 ≤ b3 ∧ b3 < 0xC0) :
    utf8Decode (b :: b1 :: b2 :: b3 :: bs) = (utf8Decode bs).map (fun cs =>
      Char.ofNat ((b - 0xF0) * 262144 + (b1 - 0x80) * 4096 +
        (b2 - 0x80) * 64 + (b3 - 0x80)) :: cs) := by
  rw [utf8Decode, if_neg (by omega), if_neg (by omega), if_neg (by omega),
    if_neg (by omega), if_pos h.2]
  rw [utf8DecodeFour, if_pos (by simp; omega)]

theorem utf8Decode_append (c : Char) (bs : List Nat) :
    utf8Decode (utf8Bytes c ++ bs) = (utf8Decode bs).map (fun cs => c :: cs)
    := by
  have hval : c.toNat < 1114112 := char_toNat_lt c
  simp only [utf8Bytes]
  by_cases h1 : c.toNat < 0x80
  · rw [if_pos h1, List.singleton_append, utf8Decode_one _ _ h1,
      Char.ofNat_toNat]
  · rw [if_neg h1]
    by_cases h2 : c.toNat < 0x800
    · rw [if_pos h2, List.cons_append, List.cons_append, List.nil_append,
        utf8Decode_two _ _ _ ⟨by omega, by omega⟩ ⟨by omega, by omega⟩]
      have he : (0xC0 + c.toNat / 64 - 0xC0) * 64 +
          (0x80 + c.toNat % 64 - 0x80) = c.toNat := by omega
      rw [he, Char.ofNat_toNat]
    · rw [if_neg h2]
      by_cases h3 : c.toNat < 0x10000
      · rw [if_pos h3, List.cons_append, List.cons_append, List.cons_append,
          List.nil_append,
          utf8Decode_three _ _ _ _ ⟨by omega, by omega⟩ ⟨by omega, by omega⟩
            ⟨by omega, by omega⟩]
        have he : (0xE0 + c.toNat / 4096 - 0xE0) * 4096 +
            (0x80 + c.toNat / 64 % 64 - 0x80) * 64 +
            (0x80 + c.toNat % 64 - 0x80) = c.toNat := by omega
        rw [he, Char.ofNat_toNat]
      · rw [if_neg h3, List.cons_append, List.cons_append, List.cons_append,
          List.cons_append, List.nil_append,
          utf8Decode_four _ _ _ _ _ ⟨by omega, by omega⟩ ⟨by omega, by omega⟩
            ⟨by omega, by omega⟩ ⟨by omega, by omega⟩]
        have he : (0xF0 + c.toNat / 262144 - 0xF0) * 262144 +
            (0x80 + c.toNat / 4096 % 64 - 0x80) * 4096 +
            (0x80 + c.toNat / 64 % 64 - 0x80) * 64 +
            (0x80 + c.toNat % 64 - 0x80) = c.toNat := by omega
        rw [he, Char.ofNat_toNat]

theorem utf8Decode_flatMap (s : List Char) :
    utf8Decode (s.flatMap utf8Bytes) = some s := by
  induction s with
  | nil => rw [List.flatMap_nil, utf8Decode]
  | cons c cs ih =>
    rw [List.flatMap_cons, utf8Decode_append, ih]
    rfl

theorem hexVal_hexDigitChar : ∀ n, n < 16 → hexVal (hexDigitChar n) = some n
    := by decide

theorem percentDecode_lit (c : Char) (rest : List Char) (h1 : ¬ c = '%')
    (h2 : c.toNat < 0x80) :
    percentDecode (c :: rest) =
      (percentDecode rest).map (fun bs => c.toNat :: bs) := by
  rw [percentDecode.eq_def]
  simp only [if_neg h1, if_pos h2]

theorem percentDecode_esc (h l : Char) (rest : List Char) (hv lv : Nat)
    (hh : hexVal h = some hv) (hl : hexVal l = some lv) :
    percentDecode ('%' :: h :: l :: rest) =
      (percentDecode rest).map (fun bs => (hv * 16 + lv) :: bs) := by
  rw [percentDecode.eq_def]
  simp only [if_pos rfl, hh, hl]
  simp

theorem percentDecode_escape (b : Nat) (hb : b < 256) (t : List Char) :
    percentDecode (percentEscape b ++ t) =
      (percentDecode t).map (fun bs => b :: bs) := by
  simp only [percentEscape, List.cons_append, List.nil_append]
  rw [percentDecode_esc _ _ _ _ _ (hexVal_hexDigitChar (b / 16) (by omega))
    (hexVal_hexDigitChar (b % 16) (by omega))]
  have he : b / 16 * 16 + b % 16 = b := by omega
  rw [he]

theorem percentDecode_escapes (bs : List Nat) (hbs : ∀ b ∈ bs, b < 256)
    (t : List Char) :
    percentDecode (bs.flatMap percentEscape ++ t) =
      (percentDecode t).map (fun out => bs ++ out) := by
  induction bs with
  | nil =>
    simp only [List.flatMap_nil, List.nil_append]
    cases percentDecode t <;> simp
  | cons b rest ih =>
    rw [List.flatMap_cons, List.append_assoc,
      percentDecode_escape b (hbs b (by simp)) _,
      ih (fun x hx => hbs x (by simp [hx]))]
    cases percentDecode t <;> simp

theorem isUriUnreserved_ascii (c : Char) (h : isUriUnreserved c = true) :
    c.toNat < 0x80 ∧ ¬ c = '%' := by
  simp only [isUriUnreserved, Bool.or_eq_true, Bool.and_eq_true,
    decide_eq_true_eq] at h
  rcases h with ((((((((((h | h) | h) | h) | h) | h) | h) | h) | h) | h) |
    h) | h
  · exact ⟨by omega, fun he => absurd (he ▸ h) (by decide)⟩
  · exact ⟨by omega, fun he => absurd (he ▸ h) (by decide)⟩
  · exact ⟨by omega, fun he => absurd (he ▸ h) (by decide)⟩
  · exact ⟨by rw [h]; decide, by rw [h]; decide⟩
  · exact ⟨by rw [h]; decide, by rw [h]; decide⟩
  · exact ⟨by rw [h]; decide, by rw [h]; decide⟩
  · exact ⟨by rw [h]; decide, by rw [h]; decide⟩
  · exact ⟨by rw [h]; decide, by rw [h]; decide⟩
  · exact ⟨by rw [h]; decide, by rw [h]; decide⟩
  · exact ⟨by rw [h]; decide, by rw [h]; decide⟩
  · exact ⟨by rw [h]; decide, by rw [h]; decide⟩
  · exact ⟨by rw [h]; decide, by rw [h]; decide⟩

theorem utf8Bytes_ascii (c : Char) (h : c.toNat < 0x80) :
    utf8Bytes c = [c.toNat] := by
  simp only [utf8Bytes, if_pos h]

theorem utf8Bytes_lt_256 (c : Char) : ∀ b ∈ utf8Bytes c, b < 256 := by
  intro b hb
  have hval : c.toNat < 1114112 := char_toNat_lt c
  simp only [utf8Bytes] at hb
  split at hb
  · simp at hb; omega
  · split at hb
    · simp at hb; rcases hb with h | h <;> omega
    · split at hb
      · simp at hb; rcases hb with h | h | h <;> omega
      · simp at hb; rcases hb with h | h | h | h <;> omega

theorem percentDecode_encode_append (s : List Char) (t : List Char) :
    percentDecode (encodeURIComponent s ++ t) =
      (percentDecode t).map (fun out => s.flatMap utf8Bytes ++ out) := by
  induction s with
  | nil =>
    simp only [encodeURIComponent, List.flatMap_nil, List.nil_append]
    cases percentDecode t <;> simp
  | cons c cs ih =>
    simp only [encodeURIComponent, List.flatMap_cons] at ih ⊢
    by_cases hu : isUriUnreserved c = true
    · obtain ⟨hascii, hpct⟩ := isUriUnreserved_ascii c hu
      rw [if_pos hu, List.singleton_append, List.cons_append,
        percentDecode_lit c _ hpct hascii, ih, utf8Bytes_ascii c hascii]
      cases percentDecode t <;> simp
    · rw [if_neg hu, List.append_assoc,
        percentDecode_escapes (utf8Bytes c) (utf8Bytes_lt_256 c) _, ih]
      cases percentDecode t <;> simp

theorem decode_encodeURIComponent (s : List Char) :
    decodeURIComponent (encodeURIComponent s) = some s := by
  unfold decodeURIComponent
  have h := percentDecode_encode_append s []
  rw [List.append_nil] at h
  rw [h]
  simp only [percentDecode, Option.map_some, List.append_nil]
  simpa using utf8Decode_flatMap s

/-- The path segment between `/activities/` and the following `/` in a
constructed request URL (the 12 dropped characters are `/activities/`). -/
def pathSegmentAfterActivities (url : List Char) : List Char :=
  (url.drop 12).takeWhile (fun c => c ≠ '/')

/-- The value of the `email` query parameter of a constructed request URL:
the characters after `?email=` (7 characters from the first `?`) up to a
query/fragment delimiter. -/
def queryEmailValue (url : List Char) : List Char :=
  ((url.dropWhile (fun c => c ≠ '?')).drop 7).takeWhile
    (fun c => c ≠ '&' && c ≠ '#')

theorem takeWhile_append_all {p : Char → Bool} (l1 l2 : List Char)
    (h : ∀ c ∈ l1, p c = true) :
    (l1 ++ l2).takeWhile p = l1 ++ l2.takeWhile p := by
  induction l1 with
  | nil => simp
  | cons c cs ih =>
    rw [List.cons_append, List.takeWhile_cons, h c (by simp),
      ih (fun d hd => h d (by simp [hd]))]
    rfl

theorem takeWhile_all {p : Char → Bool} (l : List Char)
    (h : ∀ c ∈ l, p c = true) : l.takeWhile p = l := by
  induction l with
  | nil => rfl
  | cons c cs ih =>
    rw [List.takeWhile_cons, h c (by simp),
      ih (fun d hd => h d (by simp [hd]))]
    simp

theorem dropWhile_append_all {p : Char → Bool} (l1 l2 : List Char)
    (h : ∀ c ∈ l1, p c = true) :
    (l1 ++ l2).dropWhile p = l2.dropWhile p := by
  induction l1 with
  | nil => simp
  | cons c cs ih =>
    rw [List.cons_append, List.dropWhile_cons, h c (by simp),
      ih (fun d hd => h d (by simp [hd]))]
    rfl

theorem encodeURIComponent_chars (s : List Char) :
    ∀ x ∈ encodeURIComponent s,
      x ≠ '/' ∧ x ≠ '?' ∧ x ≠ '&' ∧ x ≠ '#' := by
  have hhex : ∀ n, n < 16 →
      hexDigitChar n ≠ '/' ∧ hexDigitChar n ≠ '?' ∧
      hexDigitChar n ≠ '&' ∧ hexDigitChar n ≠ '#' := by decide
  intro x hx
  simp only [encodeURIComponent, List.mem_flatMap] at hx
  obtain ⟨c, _, hc⟩ := hx
  by_cases hu : isUriUnreserved c = true
  · rw [if_pos hu] at hc
    simp only [List.mem_singleton] at hc
    subst hc
    refine ⟨?_, ?_, ?_, ?_⟩ <;> intro he <;> rw [he] at hu <;>
      exact absurd hu (by decide)
  · rw [if_neg hu] at hc
    simp only [List.mem_flatMap] at hc
    obtain ⟨b, hb, hcx⟩ := hc
    have hb256 := utf8Bytes_lt_256 c b hb
    simp only [percentEscape, List.mem_cons, List.not_mem_nil, or_false]
      at hcx
    rcases hcx with rfl | rfl | rfl
    · exact ⟨by decide, by decide, by decide, by decide⟩
    · exact hhex (b / 16) (by omega)
    · exact hhex (b % 16) (by omega)

theorem pathSegment_extract (a t : List Char) :
    pathSegmentAfterActivities
      ("/activities/".data ++ (encodeURIComponent a ++ ('/' :: t))) =
      encodeURIComponent a := by
  unfold pathSegmentAfterActivities
  rw [show (12 : Nat) = ("/activities/".data).length from rfl,
    List.drop_left]
  rw [takeWhile_append_all _ _ (fun c hc => by
    have := (encodeURIComponent_chars a c hc).1
    simpa using this)]
  rw [List.takeWhile_cons]
  simp

theorem queryEmail_extract (pre v : List Char)
    (hpre : ∀ c ∈ pre, (decide (c ≠ '?')) = true)
    (hv : ∀ c ∈ v, (decide (c ≠ '&') && decide (c ≠ '#')) = true) :
    queryEmailValue (pre ++ ('?' :: ("email=".data ++ v))) = v := by
  unfold queryEmailValue
  rw [dropWhile_append_all _ _ hpre, List.dropWhile_cons]
  rw [if_neg (by decide)]
  rw [show ('?' :: ("email=".data ++ v)) = "?email=".data ++ v from rfl]
  rw [show (7 : Nat) = ("?email=".data).length from rfl, List.drop_left]
  exact takeWhile_all v hv

/-- C10: the signup and unregister request URLs embed the activity name and
participant identifier via `encodeURIComponent`; extracting the path segment
after `/activities/` and the `email` query value of the constructed URL
yields exactly the encoded components, and decoding them recovers the
original name and identifier — for every pair of strings, including ones
containing `/`, `?`, `&`, `#`, or `@`. -/
theorem uri_component_roundtrip (name id : List Char) :
    pathSegmentAfterActivities (signupUrl name id) =
      encodeURIComponent name ∧
    queryEmailValue (signupUrl name id) = encodeURIComponent id ∧
    pathSegmentAfterActivities (unregisterUrl name id) =
      encodeURIComponent name ∧
    queryEmailValue (unregisterUrl name id) = encodeURIComponent id ∧
    decodeURIComponent (encodeURIComponent name) = some name ∧
    decodeURIComponent (encodeURIComponent id) = some id := by
  have hact : ∀ c ∈ ("/activities/".data : List Char),
      decide (c ≠ '?') = true := by decide
  have hsignup : ∀ c ∈ ("/signup".data : List Char),
      decide (c ≠ '?') = true := by decide
  have hunreg : ∀ c ∈ ("/unregister".data : List Char),
      decide (c ≠ '?') = true := by decide
  have hv : ∀ c ∈ encodeURIComponent id,
      (decide (c ≠ '&') && decide (c ≠ '#')) = true := fun c hc => by
    have h3 := (encodeURIComponent_chars id c hc).2.2
    simp [h3.1, h3.2]
  have hs1 : signupUrl name id = "/activities/".data ++
      (encodeURIComponent name ++
        ('/' :: ("signup?email=".data ++ encodeURIComponent id))) := by
    unfold signupUrl
    simp only [List.append_assoc]
    rfl
  have hs2 : signupUrl name id = (("/activities/".data ++
      encodeURIComponent name) ++ "/signup".data) ++
      ('?' :: ("email=".data ++ encodeURIComponent id)) := by
    unfold signupUrl
    simp only [List.append_assoc]
    rfl
  have hu1 : unregisterUrl name id = "/activities/".data ++
      (encodeURIComponent name ++
        ('/' :: ("unregister?email=".data ++ encodeURIComponent id))) := by
    unfold unregisterUrl
    simp only [List.append_assoc]
    rfl
  have hu2 : unregisterUrl name id = (("/activities/".data ++
      encodeURIComponent name) ++ "/unregister".data) ++
      ('?' :: ("email=".data ++ encodeURIComponent id)) := by
    unfold unregisterUrl
    simp only [List.append_assoc]
    rfl
  refine ⟨?_, ?_, ?_, ?_, decode_encodeURIComponent name,
    decode_encodeURIComponent id⟩
  · rw [hs1]
    exact pathSegment_extract _ _
  · rw [hs2]
    refine queryEmail_extract _ _ (fun c hc => ?_) hv
    simp only [List.mem_append] at hc
    rcases hc with (hc | hc) | hc
    · exact hact c hc
    · simpa using (encodeURIComponent_chars name c hc).2.1
    · exact hsignup c hc
  · rw [hu1]
    exact pathSegment_extract _ _
  · rw [hu2]
    refine queryEmail_extract _ _ (fun c hc => ?_) hv
    simp only [List.mem_append] at hc
    rcases hc with (hc | hc) | hc
    · exact hact c hc
    · simpa using (encodeURIComponent_chars name c hc).2.1
    · exact hunreg c hc
